import Mathlib

/-!
Shallow embedding of the container segmentation engine of `pkpextract.py`
and the head-concatenation output of `pkphead.py`.

Byte strings (Python `bytes`) are modelled as `List Nat`; Python slice
indices (which may be negative, meaning "from the end", and are clamped
into `[0, len]`) are modelled by `pyIdx`.  Python's `bytes.find(pat, start)`
(lowest index `≥ start` at which `pat` occurs, `-1` when absent) is
modelled by `bfind` via a fuelled linear scan `firstIdxAux`.  The regular
expressions in the source are literal strings except `_pythonStartRE`,
whose two alternatives are modelled by `fromImportMatch` and
`importNameMatch` (match-existence at a position, which determines
`mo.start()` of a search).  The `WeirdFileError` exception is modelled
with `Except Unit`.
-/

namespace Pkp

/-- ASCII codes of a string, used to write the byte-string literals of the
source. -/
def strBytes (s : String) : List Nat := s.toList.map Char.toNat

/-- A Python `bytes` buffer. -/
abbrev Buf := List Nat

/-- Normalize a Python slice index into `[0, n]`: a negative index counts
from the end, and both ends are clamped. -/
def pyIdx (n : Nat) (i : Int) : Nat :=
  if i < 0 then min (i + n).toNat n else min i.toNat n

/-- `buf[:a]` in Python. -/
def pySliceTo (buf : Buf) (a : Int) : Buf := buf.take (pyIdx buf.length a)

/-- `buf[a:b]` in Python. -/
def pySliceBetween (buf : Buf) (a b : Int) : Buf :=
  (buf.take (pyIdx buf.length b)).drop (pyIdx buf.length a)

/-- `buf[b:]` in Python. -/
def pySliceFrom (buf : Buf) (b : Int) : Buf := buf.drop (pyIdx buf.length b)

/-- `BufTriplet` of the source: a triplet of buffers. -/
structure BufTriplet where
  head : Buf
  body : Buf
  tail : Buf
deriving DecidableEq, Repr

/-- `splitBuf` of the source: split `buf` in 3 parts, the middle one being
spanned by `_range` (`BufTriplet(buf[:a], buf[a:b], buf[b:])`). -/
def splitBuf (buf : Buf) (r : Int × Int) : BufTriplet :=
  ⟨pySliceTo buf r.1, pySliceBetween buf r.1 r.2, pySliceFrom buf r.2⟩

/-- `pat` occurs in `buf` at position `i`. -/
def matchesAt (buf pat : Buf) (i : Nat) : Bool :=
  (buf.drop i).take pat.length == pat

/-- First index `≥ i` satisfying `p`, scanning at most `fuel` positions. -/
def firstIdxAux (p : Nat → Bool) : Nat → Nat → Option Nat
  | _, 0 => none
  | i, fuel + 1 => if p i then some i else firstIdxAux p (i + 1) fuel

/-- Python `buf.find(pat, start)` as an `Option`: the lowest position
`≥ start` at which `pat` occurs in `buf`. -/
def bfindN (buf pat : Buf) (start : Nat) : Option Nat :=
  firstIdxAux (fun i => matchesAt buf pat i) start (buf.length + 1 - start)

/-- Python `buf.find(pat, start)`: `-1` when the pattern is absent. -/
def bfind (buf pat : Buf) (start : Nat) : Int :=
  match bfindN buf pat start with
  | none => -1
  | some i => (i : Int)

/-- The literal of `_pdfEndRE`. -/
def eofPat : Buf := strBytes "%%EOF"

/-- The pdf start literal searched by `pdfFinder`'s start lambda. -/
def pdfStartPat : Buf := strBytes "%PDF-"

/-- `_pdfPartMaybeEnd` of the source: match an `%%EOF` in a pdf part,
returning `mo.end()` (match position plus pattern length), `-1` if not
found. -/
def pdfPartMaybeEnd (buf : Buf) (start : Nat) : Int :=
  match bfindN buf eofPat start with
  | none => -1
  | some i => ((i + eofPat.length : Nat) : Int)

/-- `pdfPartEnd` of the source: match the end of a pdf part (the second
`%%EOF`), `-1` if not found. -/
def pdfPartEnd (buf : Buf) (start : Nat) : Int :=
  let halfEnd := pdfPartMaybeEnd buf start
  if halfEnd = -1 then -1 else pdfPartMaybeEnd buf halfEnd.toNat

/-- ASCII `\w` or `.`, the character class of `_pythonStartRE` (ASCII
mode): digits, letters, underscore, dot. -/
def isWordDot (c : Nat) : Bool :=
  (48 ≤ c && c ≤ 57) || (65 ≤ c && c ≤ 90) || (97 ≤ c && c ≤ 122) || c == 95 || c == 46

/-- The literal "from " opening the first alternative of `_pythonStartRE`. -/
def fromPat : Buf := strBytes "from "

/-- The literal scanned for by `pythonPartStart` (and opening the second
alternative of `_pythonStartRE`). -/
def importPat : Buf := strBytes "import "

/-- The closing literal of the first alternative of `_pythonStartRE`
(a space followed by the keyword, no trailing space). -/
def spaceImportPat : Buf := strBytes " import"

/-- `k` word/dot characters are present in `buf` starting at `i`. -/
def wordDotRun (buf : Buf) (i k : Nat) : Bool :=
  decide (i + k ≤ buf.length) && ((buf.drop i).take k).all isWordDot

/-- Match existence at position `i` of the first alternative of
`_pythonStartRE`, the keyword "from", a space, one or more word/dot
characters, a space and the keyword "import". -/
def fromImportMatch (buf : Buf) (i : Nat) : Bool :=
  matchesAt buf fromPat i &&
    (List.range (buf.length + 1)).any (fun k =>
      decide (1 ≤ k) && wordDotRun buf (i + 5) k && matchesAt buf spaceImportPat (i + 5 + k))

/-- Match existence at position `i` of the second alternative of
`_pythonStartRE`: the keyword "import", a space, one or more word/dot
characters (existence needs just one). -/
def importNameMatch (buf : Buf) (i : Nat) : Bool :=
  matchesAt buf importPat i && isWordDot (buf.getD (i + 7) 0)

/-- Some alternative of `_pythonStartRE` matches at position `i`. -/
def pyStartMatchAt (buf : Buf) (i : Nat) : Bool :=
  fromImportMatch buf i || importNameMatch buf i

/-- `_pythonStartRE.search(buf, pos)`: the start position of the leftmost
match at or after `pos`. -/
def pythonStartSearch (buf : Buf) (pos : Nat) : Option Nat :=
  firstIdxAux (fun i => pyStartMatchAt buf i) pos (buf.length + 1 - pos)

/-- `BACKWARD_LOOKUP_LEN` of the source. -/
def BACKWARD_LOOKUP_LEN : Nat := 25

/-- `pythonPartStart` of the source: match the start of a python part,
`.ok (-1)` if not found; `.error ()` models raising `WeirdFileError`
when the "import " literal occurs within the look-back window of the
buffer start. -/
def pythonPartStart (buf : Buf) : Except Unit Int :=
  match bfindN buf importPat 0 with
  | none => .ok (-1)
  | some importPos =>
    if importPos < BACKWARD_LOOKUP_LEN then .error ()
    else
      match pythonStartSearch buf (importPos - BACKWARD_LOOKUP_LEN) with
      | none => .ok (-1)
      | some i => .ok (i : Int)

/-- The binary 1 byte at which the python part ends. -/
def sohPat : Buf := [1]

/-- The end lambda of `pythonFinder`: `x.find(b"\x01", start)`. -/
def pythonPartEndFind (buf : Buf) (start : Nat) : Int := bfind buf sohPat start

/-- The start lambda of `pdfFinder`: `x.find(b"%PDF-")`, which never
raises, wrapped into `Except` to share `find_range`. -/
def pdfStartFinder (buf : Buf) : Except Unit Int := .ok (bfind buf pdfStartPat 0)

/-- `find_range` of the source: find the range in `buf` enclosed by the
matches of `find_start` and `find_end`.  A `WeirdFileError` raised by
`find_start` propagates. -/
def find_range (buf : Buf) (find_start : Buf → Except Unit Int)
    (find_end : Buf → Nat → Int) : Except Unit (Int × Int) :=
  match find_start buf with
  | .error e => .error e
  | .ok start =>
    if start = -1 then .ok (-1, -1)
    else .ok (start, find_end buf start.toNat)

/-- `rangeSize` of the source. -/
def rangeSize (x : Int × Int) : Int := x.2 - x.1

/-- `SplittingFinder.__call__` of the source: return the size of the span
and the triplet of buffers in which the span splits `buf`.  The two
finder functions play the role of the fields set by `__init__`. -/
def SplittingFinder (find_start : Buf → Except Unit Int)
    (find_end : Buf → Nat → Int) (buf : Buf) : Except Unit (Int × BufTriplet) :=
  match find_range buf find_start find_end with
  | .error e => .error e
  | .ok span => .ok (rangeSize span, splitBuf buf span)

/-- `pdfFinder` of the source. -/
def pdfFinder (buf : Buf) : Except Unit (Int × BufTriplet) :=
  SplittingFinder pdfStartFinder pdfPartEnd buf

/-- `pythonFinder` of the source. -/
def pythonFinder (buf : Buf) : Except Unit (Int × BufTriplet) :=
  SplittingFinder pythonPartStart pythonPartEndFind buf

/-- `Status` of the source. -/
inductive Status
  | pythonFirst
  | pdfFirst
  | ERROR
deriving DecidableEq, Repr

instance exceptDecEq {ε α : Type} [DecidableEq ε] [DecidableEq α] :
    DecidableEq (Except ε α) := fun x y =>
  match x, y with
  | .error a, .error b =>
    if h : a = b then .isTrue (by rw [h]) else
      .isFalse (fun hh => by cases hh; exact h rfl)
  | .error _, .ok _ => .isFalse (fun hh => by cases hh)
  | .ok _, .error _ => .isFalse (fun hh => by cases hh)
  | .ok a, .ok b =>
    if h : a = b then .isTrue (by rw [h]) else
      .isFalse (fun hh => by cases hh; exact h rfl)

/-- The five-way split `head, first payload, inter-payload body, second
payload, tail` materialized by `processBuf` (the tuple unpacked on lines
273 and 278 of the source). -/
abbrev Five := Buf × Buf × Buf × Buf × Buf

/-- Outcome of one `PkpTools.processBuf` call.  `ret` is the normal
`return status, pdfSize, pythonSize`, extended with the five-way split
the source materializes locally (persisting its head), `none` when the
`except WeirdFileError` branch ran.  `unboundLocal` models the
`UnboundLocalError` the Python code raises at the `return` statement when
`WeirdFileError` was raised by the first (head) attempt: the handler is
entered but the local `pythonSize` was never assigned, so the `return`
itself raises and the exception escapes `processBuf`. -/
inductive ProcResult
  | ret (status : Status) (pdfSize pythonSize : Int) (five : Option Five)
  | unboundLocal
deriving DecidableEq, Repr

/-- The classification core of `PkpTools.processBuf` (source lines
263-296).  File writing and the optional python source validation
(`pythonPartIsbroken`, lines 280-290) are I/O outside the classification
and are omitted.  The `.error` branch of `pdfFinder` is unreachable
(`pdfStartFinder` never raises, see `pdfFinder_isOk`). -/
def processBuf (buf : Buf) : ProcResult :=
  match pdfFinder buf with
  | .error _ => .unboundLocal
  | .ok (pdfSize, pdfSlices) =>
    match pythonFinder pdfSlices.head with
    | .error _ => .unboundLocal
    | .ok (pythonSize, pythonSlices) =>
      if 0 < pythonSize then
        .ret .pythonFirst pdfSize pythonSize
          (some (pythonSlices.head, pythonSlices.body, pythonSlices.tail,
            pdfSlices.body, pdfSlices.tail))
      else
        match pythonFinder pdfSlices.tail with
        | .error _ => .ret .ERROR pdfSize pythonSize none
        | .ok (pythonSize2, pythonSlices2) =>
          .ret .pdfFirst pdfSize pythonSize2
            (some (pdfSlices.head, pdfSlices.body, pythonSlices2.head,
              pythonSlices2.body, pythonSlices2.tail))

/-- `StatRow` of the source, without the wall-clock `time_elapsed` field
(real time is outside the embedding). -/
structure StatRow where
  bufLen : Nat
  pdfSize : Int
  pythonSize : Int
deriving DecidableEq, Repr

/-- The main loop of `PkpTools.run` over the already-decompressed buffers:
call `processBuf` on each and record one stats row (the CSV line also
carries the status).  The boolean is true when the run was aborted by an
exception escaping `processBuf` (nothing in `run` or `main` recovers from
it: `main` prints and re-raises), in which case the remaining files are
never processed. -/
def runBufs : List Buf → List (Status × StatRow) × Bool
  | [] => ([], false)
  | buf :: rest =>
    match processBuf buf with
    | .unboundLocal => ([], true)
    | .ret st ps qs _ =>
      let (rows, ab) := runBufs rest
      ((st, ⟨buf.length, ps, qs⟩) :: rows, ab)

/-- One line written by `PkpTools.writeStatsSummary`, by content (the
numeric text formatting of the source is not modelled). -/
inductive SummaryLine
  | separator
  | numberOfFiles (n : Nat)
  | maxBufLen (v : Nat) (name : String)
  | minBufLen (v : Nat) (name : String)
  | totalUnzipped (v : Nat)
  | averageUnzipped (v : Nat)
deriving DecidableEq, Repr

/-- `PkpTools.writeStatsSummary` (source lines 316-339): the separator
line, then, only when `statsData` is non-empty, the five aggregate lines.
The running maximum/minimum/total loop over `zip(inFileNames, statsData)`
is translated by a fold; `int(totBufLen / count)` is translated as
truncating natural division (the source divides floats and truncates,
which agrees on these magnitudes). -/
def writeStatsSummary (inFileNames : List String) (statsData : List StatRow) :
    List SummaryLine :=
  [SummaryLine.separator] ++
    match statsData with
    | [] => []
    | first_r :: _ =>
      let first_name := inFileNames.headD ""
      let init : Nat × (Nat × String) × (Nat × String) :=
        (0, (first_r.bufLen, first_name), (first_r.bufLen, first_name))
      let acc := (List.zip inFileNames statsData).foldl
        (fun acc nr =>
          let tot := acc.1 + nr.2.bufLen
          let mx := if nr.2.bufLen > acc.2.1.1 then (nr.2.bufLen, nr.1) else acc.2.1
          let mn := if nr.2.bufLen < acc.2.2.1 then (nr.2.bufLen, nr.1) else acc.2.2
          (tot, mx, mn)) init
      let count := statsData.length
      [SummaryLine.numberOfFiles inFileNames.length,
       SummaryLine.maxBufLen acc.2.1.1 acc.2.1.2,
       SummaryLine.minBufLen acc.2.2.1 acc.2.2.2,
       SummaryLine.totalUnzipped acc.1,
       SummaryLine.averageUnzipped (acc.1 / count)]

/-- `PkpHead.writeHead` of `pkphead.py`: the bytes appended to the head
concatenation stream for one file (two writes in the short case). -/
def writeHead (headsize : Nat) (head : Buf) : Buf :=
  if head.length < headsize then head ++ List.replicate (headsize - head.length) 0
  else head.take headsize

/-- The `--headsize` default of `pkphead.py`. -/
def defaultHeadsize : Nat := 8 * 1024

/-- Concrete input: a python start with no binary-1 terminator, so the
python span has the form `(start, -1)`. -/
def wbufPyNoEnd : Buf := strBytes "bbbbbbbbbbbbbbbbbbbbbbbbbimport os"

/-- Concrete input: script before the pdf part. -/
def wbufC2py : Buf :=
  strBytes "bbbbbbbbbbbbbbbbbbbbbbbbbimport os" ++ [1] ++ strBytes "%PDF-%%EOF%%EOF"

/-- Concrete input: pdf part first, script after it. -/
def wbufC2pdf : Buf :=
  strBytes "%PDF-ab%%EOFcd%%EOF" ++ strBytes "aaaaaaaaaaaaaaaaaaaaaaaaaimport os" ++ [1]

/-- Concrete input: the pre-pdf head (here the whole buffer less its final
byte) contains "import " within the 25-byte look-back window, so the HEAD
attempt raises `WeirdFileError`. -/
def wbufWeirdHead : Buf := strBytes "import x" ++ [1]

/-- Concrete input: the script start raises `WeirdFileError` only in the
TAIL attempt — "import " opens the post-pdf tail. -/
def wbufWeirdTail : Buf := strBytes "%PDF-%%EOF%%EOFimport x"

/-- Occurrence positions of the pdf terminator `%%EOF` in `buf` at or
after `start`, in increasing order.  This is the specification-side
notion of "the n-th `%%EOF` occurrence" against which `pdfPartEnd` is
verified. -/
def eofOccsFrom (buf : Buf) (start : Nat) : List Nat :=
  (List.range (buf.length + 1)).filter
    (fun i => decide (start ≤ i) && matchesAt buf eofPat i)

/-- Concrete input: a pdf part with two `%%EOF` terminators and trailing
bytes. -/
def wbufC4 : Buf := strBytes "%PDF-ab%%EOFcd%%EOFzz"

/-- Concrete input: the "import " literal sits at offset 25 but nothing
after it is a word/dot character, so the stricter pattern fails to
re-match. -/
def wbufRegexMiss : Buf := strBytes "aaaaaaaaaaaaaaaaaaaaaaaaaimport "

/-- Concrete input: a pdf start marker with no `%%EOF` terminator, so the
end search fails while the start search succeeds. -/
def wbufPdfNoEof : Buf := strBytes "%PDF-x"

end Pkp

namespace Pkp

theorem matchesAt_iff {buf pat : Buf} {i : Nat} :
    matchesAt buf pat i = true ↔ (buf.drop i).take pat.length = pat := by
  simp [matchesAt]

theorem matchesAt_bound {buf pat : Buf} {i : Nat} (hp : pat ≠ [])
    (h : matchesAt buf pat i = true) : i + pat.length ≤ buf.length := by
  have he : (buf.drop i).take pat.length = pat := matchesAt_iff.mp h
  have hl := congrArg List.length he
  simp only [List.length_take, List.length_drop] at hl
  have hpl : 0 < pat.length := List.length_pos.mpr hp
  omega

theorem firstIdxAux_eq_some {p : Nat → Bool} :
    ∀ {fuel i r : Nat}, firstIdxAux p i fuel = some r ↔
      i ≤ r ∧ r < i + fuel ∧ p r = true ∧ ∀ j, i ≤ j → j < r → p j = false := by
  intro fuel
  induction fuel with
  | zero =>
    intro i r
    constructor
    · intro h; simp [firstIdxAux] at h
    · rintro ⟨h1, h2, -, -⟩; exact absurd h2 (by omega)
  | succ fuel ih =>
    intro i r
    by_cases hpi : p i = true
    · simp only [firstIdxAux, hpi, if_true, Option.some.injEq]
      constructor
      · rintro rfl
        exact ⟨Nat.le_refl _, by omega, hpi, fun j h1 h2 => absurd (Nat.lt_of_le_of_lt h1 h2) (Nat.lt_irrefl _)⟩
      · rintro ⟨h1, h2, h3, h4⟩
        rcases Nat.eq_or_lt_of_le h1 with heq | hlt
        · exact heq
        · have := h4 i (Nat.le_refl _) hlt
          rw [hpi] at this
          exact absurd this (by simp)
    · have hpi' : p i = false := by simpa using hpi
      simp only [firstIdxAux, hpi', if_false, Bool.false_eq_true]
      rw [ih]
      constructor
      · rintro ⟨h1, h2, h3, h4⟩
        refine ⟨by omega, by omega, h3, fun j hj1 hj2 => ?_⟩
        rcases Nat.eq_or_lt_of_le hj1 with heq | hlt
        · rw [← heq]; exact hpi'
        · exact h4 j hlt hj2
      · rintro ⟨h1, h2, h3, h4⟩
        have hir : i ≠ r := by
          rintro rfl
          rw [h3] at hpi'
          exact absurd hpi' (by simp)
        exact ⟨by omega, by omega, h3, fun j hj1 hj2 => h4 j (by omega) hj2⟩

theorem firstIdxAux_eq_none {p : Nat → Bool} :
    ∀ {fuel i : Nat}, firstIdxAux p i fuel = none ↔
      ∀ j, i ≤ j → j < i + fuel → p j = false := by
  intro fuel
  induction fuel with
  | zero =>
    intro i
    constructor
    · intro _ j h1 h2; exact absurd h2 (by omega)
    · intro _; rfl
  | succ fuel ih =>
    intro i
    by_cases hpi : p i = true
    · simp only [firstIdxAux, hpi, if_true]
      constructor
      · intro h; simp at h
      · intro h
        have := h i (Nat.le_refl _) (by omega)
        rw [hpi] at this
        exact absurd this (by simp)
    · have hpi' : p i = false := by simpa using hpi
      simp only [firstIdxAux, hpi', if_false, Bool.false_eq_true]
      rw [ih]
      constructor
      · intro h j hj1 hj2
        rcases Nat.eq_or_lt_of_le hj1 with heq | hlt
        · rw [← heq]; exact hpi'
        · exact h j hlt (by omega)
      · intro h j hj1 hj2
        exact h j (by omega) (by omega)

theorem window_eq_some {p : Nat → Bool} {n : Nat} (hb : ∀ j, p j = true → j < n + 1)
    {start r : Nat} :
    firstIdxAux p start (n + 1 - start) = some r ↔
      start ≤ r ∧ p r = true ∧ ∀ j, start ≤ j → j < r → p j = false := by
  rw [firstIdxAux_eq_some]
  constructor
  · rintro ⟨h1, -, h3, h4⟩; exact ⟨h1, h3, h4⟩
  · rintro ⟨h1, h3, h4⟩
    have hr := hb r h3
    exact ⟨h1, by omega, h3, h4⟩

theorem window_eq_none {p : Nat → Bool} {n : Nat} (hb : ∀ j, p j = true → j < n + 1)
    {start : Nat} :
    firstIdxAux p start (n + 1 - start) = none ↔ ∀ j, start ≤ j → p j = false := by
  rw [firstIdxAux_eq_none]
  constructor
  · intro h j hj
    by_cases hpj : p j = true
    · have := hb j hpj
      exact h j hj (by omega)
    · simpa using hpj
  · intro h j hj _
    exact h j hj

theorem matchesAt_window (buf pat : Buf) (hp : pat ≠ []) :
    ∀ j, matchesAt buf pat j = true → j < buf.length + 1 := by
  intro j h
  have hb := matchesAt_bound hp h
  have hpl : 0 < pat.length := List.length_pos.mpr hp
  omega

theorem bfindN_eq_some {buf pat : Buf} (hp : pat ≠ []) {start r : Nat} :
    bfindN buf pat start = some r ↔
      start ≤ r ∧ matchesAt buf pat r = true ∧
        ∀ j, start ≤ j → j < r → matchesAt buf pat j = false :=
  window_eq_some (matchesAt_window buf pat hp)

theorem bfindN_eq_none {buf pat : Buf} (hp : pat ≠ []) {start : Nat} :
    bfindN buf pat start = none ↔ ∀ j, start ≤ j → matchesAt buf pat j = false :=
  window_eq_none (matchesAt_window buf pat hp)

theorem bfindN_some_facts {buf pat : Buf} {start r : Nat} (hp : pat ≠ [])
    (h : bfindN buf pat start = some r) :
    start ≤ r ∧ r + pat.length ≤ buf.length := by
  have := (bfindN_eq_some hp).mp h
  exact ⟨this.1, matchesAt_bound hp this.2.1⟩

/-- Both alternatives of the python-start regex consume at least 5 bytes,
so a match position is strictly inside the buffer. -/
theorem pyStartMatchAt_facts {buf : Buf} {i : Nat} (h : pyStartMatchAt buf i = true) :
    i + 5 ≤ buf.length := by
  rw [pyStartMatchAt, Bool.or_eq_true] at h
  rcases h with h | h
  · rw [fromImportMatch, Bool.and_eq_true] at h
    have := matchesAt_bound (by decide : fromPat ≠ []) h.1
    simpa [fromPat, strBytes] using this
  · rw [importNameMatch, Bool.and_eq_true] at h
    have := matchesAt_bound (by decide : importPat ≠ []) h.1
    have h7 : i + 7 ≤ buf.length := by simpa [importPat, strBytes] using this
    omega

theorem pyStartMatchAt_window (buf : Buf) :
    ∀ j, pyStartMatchAt buf j = true → j < buf.length + 1 := by
  intro j h
  have := pyStartMatchAt_facts h
  omega

theorem pythonStartSearch_eq_some {buf : Buf} {pos r : Nat} :
    pythonStartSearch buf pos = some r ↔
      pos ≤ r ∧ pyStartMatchAt buf r = true ∧
        ∀ j, pos ≤ j → j < r → pyStartMatchAt buf j = false :=
  window_eq_some (pyStartMatchAt_window buf)

theorem pythonStartSearch_eq_none {buf : Buf} {pos : Nat} :
    pythonStartSearch buf pos = none ↔ ∀ j, pos ≤ j → pyStartMatchAt buf j = false :=
  window_eq_none (pyStartMatchAt_window buf)

/-- The two take/drop slices of `splitBuf` re-concatenate to the whole
buffer as soon as the normalized left index is at most the normalized
right index. -/
theorem splitBuf_concat_of_le {buf : Buf} {a b : Int}
    (h : pyIdx buf.length a ≤ pyIdx buf.length b) :
    (splitBuf buf (a, b)).head ++ (splitBuf buf (a, b)).body ++ (splitBuf buf (a, b)).tail
      = buf := by
  show buf.take (pyIdx buf.length a) ++
      (buf.take (pyIdx buf.length b)).drop (pyIdx buf.length a) ++
        buf.drop (pyIdx buf.length b) = buf
  rw [show buf.take (pyIdx buf.length a)
        = (buf.take (pyIdx buf.length b)).take (pyIdx buf.length a) by
      rw [List.take_take, Nat.min_eq_left h],
    List.take_append_drop, List.take_append_drop]

theorem pyIdx_natCast (n k : Nat) : pyIdx n (k : Int) = min k n := by
  simp [pyIdx]

theorem pyIdx_neg_one (n : Nat) : pyIdx n (-1) = n - 1 := by
  simp only [pyIdx, if_pos (by omega : (-1 : Int) < 0)]
  omega

theorem find_range_ok {buf : Buf} {fs : Buf → Except Unit Int} {fe : Buf → Nat → Int}
    {s : Int} (h : fs buf = .ok s) :
    find_range buf fs fe =
      .ok (if s = -1 then ((-1 : Int), (-1 : Int)) else (s, fe buf s.toNat)) := by
  rw [find_range, h]
  by_cases hs : s = -1 <;> simp [hs]

theorem SplittingFinder_ok {fs : Buf → Except Unit Int} {fe : Buf → Nat → Int}
    {buf : Buf} {s : Int} (h : fs buf = .ok s) :
    SplittingFinder fs fe buf =
      .ok (rangeSize (if s = -1 then ((-1 : Int), (-1 : Int)) else (s, fe buf s.toNat)),
        splitBuf buf (if s = -1 then ((-1 : Int), (-1 : Int)) else (s, fe buf s.toNat))) := by
  rw [SplittingFinder, find_range_ok h]

theorem SplittingFinder_error {fs : Buf → Except Unit Int} {fe : Buf → Nat → Int}
    {buf : Buf} (h : fs buf = .error ()) :
    SplittingFinder fs fe buf = .error () := by
  rw [SplittingFinder, find_range, h]

theorem pdfFinder_isOk (buf : Buf) : ∃ p, pdfFinder buf = .ok p := by
  refine ⟨_, SplittingFinder_ok rfl⟩

theorem pdfPartEnd_cases (buf : Buf) (start : Nat) :
    pdfPartEnd buf start = -1 ∨
      ∃ eN : Nat, pdfPartEnd buf start = (eN : Int) ∧ start ≤ eN ∧ eN ≤ buf.length := by
  rw [pdfPartEnd]
  cases h1 : bfindN buf eofPat start with
  | none => left; simp [pdfPartMaybeEnd, h1]
  | some b1 =>
    have hf1 := bfindN_some_facts (by decide : eofPat ≠ []) h1
    have hlen : eofPat.length = 5 := by decide
    simp only [pdfPartMaybeEnd, h1]
    rw [if_neg (by omega : ¬ ((b1 + eofPat.length : Nat) : Int) = -1),
      Int.toNat_natCast]
    cases h2 : bfindN buf eofPat (b1 + eofPat.length) with
    | none => left; rfl
    | some b2 =>
      have hf2 := bfindN_some_facts (by decide : eofPat ≠ []) h2
      right
      exact ⟨b2 + eofPat.length, rfl, by omega, by omega⟩

theorem pythonPartStart_ok_cases {buf : Buf} {s : Int} (h : pythonPartStart buf = .ok s) :
    s = -1 ∨ ∃ sN : Nat, s = (sN : Int) ∧ sN + 5 ≤ buf.length := by
  rw [pythonPartStart] at h
  cases h1 : bfindN buf importPat 0 with
  | none =>
    rw [h1] at h
    cases h
    exact Or.inl rfl
  | some p =>
    rw [h1] at h
    dsimp only at h
    by_cases hp : p < BACKWARD_LOOKUP_LEN
    · rw [if_pos hp] at h; cases h
    · rw [if_neg hp] at h
      cases h2 : pythonStartSearch buf (p - BACKWARD_LOOKUP_LEN) with
      | none => rw [h2] at h; cases h; exact Or.inl rfl
      | some i =>
        rw [h2] at h
        cases h
        have := (pythonStartSearch_eq_some.mp h2).2.1
        exact Or.inr ⟨i, rfl, pyStartMatchAt_facts this⟩

theorem bfind_cases (buf pat : Buf) (start : Nat) (hp : pat ≠ []) :
    bfind buf pat start = -1 ∨
      ∃ r : Nat, bfind buf pat start = (r : Int) ∧ start ≤ r ∧ r + pat.length ≤ buf.length := by
  rw [bfind]
  cases h : bfindN buf pat start with
  | none => left; rfl
  | some r => right; exact ⟨r, rfl, bfindN_some_facts hp h⟩

theorem splitBuf_concat_sentinel (buf : Buf) :
    (splitBuf buf (-1, -1)).head ++ (splitBuf buf (-1, -1)).body ++
      (splitBuf buf (-1, -1)).tail = buf :=
  splitBuf_concat_of_le (Nat.le_refl _)

theorem splitBuf_concat_start {buf : Buf} {sN : Nat} {e : Int}
    (hs : sN + 1 ≤ buf.length) (he : e = -1 ∨ ∃ eN : Nat, e = (eN : Int) ∧ sN ≤ eN) :
    (splitBuf buf ((sN : Int), e)).head ++ (splitBuf buf ((sN : Int), e)).body ++
      (splitBuf buf ((sN : Int), e)).tail = buf := by
  apply splitBuf_concat_of_le
  rcases he with rfl | ⟨eN, rfl, h⟩
  · rw [pyIdx_natCast, pyIdx_neg_one]; omega
  · rw [pyIdx_natCast, pyIdx_natCast]; omega

/-- C1: for every buffer, every Segment Triplet produced by the
segmentation engine (`find_range` composed with `splitBuf`, as packaged
by `SplittingFinder` into `pdfFinder` and `pythonFinder`) — including the
sentinel span `(-1, -1)` and spans `(start, -1)` where only the end
search failed — satisfies `head ++ body ++ tail = buffer`. -/
theorem C1_concat_lossless (buf : Buf) :
    (∀ sz t, pdfFinder buf = .ok (sz, t) → t.head ++ t.body ++ t.tail = buf) ∧
    (∀ sz t, pythonFinder buf = .ok (sz, t) → t.head ++ t.body ++ t.tail = buf) := by
  constructor
  · intro sz t h
    rw [pdfFinder] at h
    cases hb : bfindN buf pdfStartPat 0 with
    | none =>
      have hfs : pdfStartFinder buf = .ok (-1) := by simp [pdfStartFinder, bfind, hb]
      rw [SplittingFinder_ok hfs] at h
      simp only [if_pos rfl] at h
      cases h
      exact splitBuf_concat_sentinel buf
    | some sN =>
      have hf := bfindN_some_facts (by decide : pdfStartPat ≠ []) hb
      have hlen : pdfStartPat.length = 5 := by decide
      have hfs : pdfStartFinder buf = .ok ((sN : Int)) := by simp [pdfStartFinder, bfind, hb]
      rw [SplittingFinder_ok hfs] at h
      rw [if_neg (by omega : ¬ ((sN : Int) = -1)), Int.toNat_natCast] at h
      cases h
      exact splitBuf_concat_start (by omega)
        (by rcases pdfPartEnd_cases buf sN with h | ⟨eN, he, h1, h2⟩
            · exact Or.inl h
            · exact Or.inr ⟨eN, he, h1⟩)
  · intro sz t h
    rw [pythonFinder] at h
    cases hps : pythonPartStart buf with
    | error e =>
      cases e
      rw [SplittingFinder_error hps] at h
      cases h
    | ok s =>
      rw [SplittingFinder_ok hps] at h
      rcases pythonPartStart_ok_cases hps with rfl | ⟨sN, rfl, hsN⟩
      · simp only [if_pos rfl] at h
        cases h
        exact splitBuf_concat_sentinel buf
      · rw [if_neg (by omega : ¬ ((sN : Int) = -1)), Int.toNat_natCast] at h
        cases h
        refine splitBuf_concat_start (by omega) ?_
        rcases bfind_cases buf sohPat sN (by decide) with hend | ⟨r, hr, h1, h2⟩
        · exact Or.inl hend
        · exact Or.inr ⟨r, hr, h1⟩



theorem C1_concat_lossless_witness :
    strBytes "bbbbbbbbbbbbbbbbbbbbbbbbb" ++ strBytes "import o" ++ strBytes "s"
      = wbufPyNoEnd ∧
    ([] : Buf) ++ strBytes "%PDF-" ++ strBytes "x" = wbufPdfNoEof :=
  ⟨(C1_concat_lossless wbufPyNoEnd).2 (-26)
      ⟨strBytes "bbbbbbbbbbbbbbbbbbbbbbbbb", strBytes "import o", strBytes "s"⟩
      (by decide),
   (C1_concat_lossless wbufPdfNoEof).1 (-1)
      ⟨[], strBytes "%PDF-", strBytes "x"⟩ (by decide)⟩

/-- C6 counterexample: on a buffer containing `%PDF-` but no `%%EOF`, the
start search succeeds and the end search fails, yet `find_range` returns
`(0, -1)`, not the sentinel `(-1, -1)` the claim asserts. -/
theorem C6_counterexample :
    find_range wbufPdfNoEof pdfStartFinder pdfPartEnd = .ok (0, -1) ∧
    pdfPartEnd wbufPdfNoEof 0 = -1 ∧
    ((0 : Int), (-1 : Int)) ≠ ((-1 : Int), (-1 : Int)) := by decide

/-- C6 amended: if the start search fails, `find_range` returns the
sentinel `(-1, -1)`; if the start search succeeds, it returns
`(start, find_end ...)`, so an end-search failure yields `(start, -1)`
(a span of negative size), not the sentinel. -/
theorem C6_find_range_amended (buf : Buf) (fs : Buf → Except Unit Int)
    (fe : Buf → Nat → Int) (s : Int) (h : fs buf = .ok s) :
    (s = -1 → find_range buf fs fe = .ok (-1, -1)) ∧
    (s ≠ -1 → find_range buf fs fe = .ok (s, fe buf s.toNat)) := by
  constructor
  · rintro rfl
    rw [find_range, h]
    simp
  · intro hs
    rw [find_range, h]
    dsimp only
    rw [if_neg hs]

theorem C6_find_range_amended_witness :
    find_range (strBytes "xyz") pdfStartFinder pdfPartEnd = .ok (-1, -1) ∧
    find_range wbufPdfNoEof pdfStartFinder pdfPartEnd =
      .ok (0, pdfPartEnd wbufPdfNoEof (0 : Int).toNat) :=
  ⟨(C6_find_range_amended (strBytes "xyz") pdfStartFinder pdfPartEnd (-1) (by decide)).1 rfl,
   (C6_find_range_amended wbufPdfNoEof pdfStartFinder pdfPartEnd 0 (by decide)).2 (by decide)⟩

/-- C7 counterexample: the size of the sentinel span `(-1, -1)` is `0`,
not negative as the claim asserts. -/
theorem C7_counterexample : rangeSize (-1, -1) = 0 ∧ ¬ rangeSize (-1, -1) < 0 := by decide

/-- C7 amended: `size(span) = end - start`; at the sentinel `(-1, -1)`
the size is `0` — non-positive but not negative — so any non-positive
size (rather than any negative size) denotes absence of the marker
pair. -/
theorem C7_rangeSize_amended :
    (∀ a b : Int, rangeSize (a, b) = b - a) ∧
    rangeSize (-1, -1) = 0 ∧ rangeSize (-1, -1) ≤ 0 :=
  ⟨fun _ _ => rfl, by decide, by decide⟩

/-- C8: the head-concatenation output advances the stream by exactly
`headsize` bytes for every file: a short head is zero-padded to
`headsize`, a long one truncated to `headsize`; the default slot size is
8192. -/
theorem C8_writeHead_stride (headsize : Nat) (head : Buf) :
    (writeHead headsize head).length = headsize ∧
    (head.length < headsize →
      writeHead headsize head = head ++ List.replicate (headsize - head.length) 0) ∧
    (headsize ≤ head.length → writeHead headsize head = head.take headsize) ∧
    defaultHeadsize = 8192 := by
  refine ⟨?_, fun h => by rw [writeHead, if_pos h],
    fun h => by rw [writeHead, if_neg (by omega)], rfl⟩
  rw [writeHead]
  by_cases h : head.length < headsize
  · rw [if_pos h]
    simp only [List.length_append, List.length_replicate]
    omega
  · rw [if_neg h]
    simp only [List.length_take]
    omega

theorem C8_writeHead_stride_witness :
    writeHead 4 [7, 7] = [7, 7] ++ List.replicate (4 - [7, 7].length) 0 ∧
    writeHead 4 [1, 2, 3, 4, 5] = [1, 2, 3, 4, 5].take 4 :=
  ⟨(C8_writeHead_stride 4 [7, 7]).2.1 (by decide),
   (C8_writeHead_stride 4 [1, 2, 3, 4, 5]).2.2.1 (by decide)⟩

/-- C9: with zero processed files the summary is exactly the separator
line: no aggregate lines are emitted (the aggregate branch, the only one
that divides by the row count, is not entered). -/
theorem C9_summary_empty_separator_only (inFileNames : List String) :
    writeStatsSummary inFileNames [] = [SummaryLine.separator] := rfl

/-- C2: the classifier always tries the head before the tail.  A positive
script size in `pdfTriplet.head` yields `PythonFirst` with the five-way
split `(scriptTriplet.head, scriptTriplet.body, scriptTriplet.tail,
pdfTriplet.body, pdfTriplet.tail)`; otherwise the script finder runs on
`pdfTriplet.tail` and (when that attempt returns) the result is
`PdfFirst` with the five-way split `(pdfTriplet.head, pdfTriplet.body,
scriptTriplet.head, scriptTriplet.body, scriptTriplet.tail)` — returned
even when the script size is non-positive in both attempts, the
non-positive tail size being reported rather than an error. -/
theorem C2_classifier_head_first (buf : Buf) (pdfSize : Int) (pdfT : BufTriplet)
    (sz : Int) (pyT : BufTriplet)
    (hpdf : pdfFinder buf = .ok (pdfSize, pdfT))
    (hpy : pythonFinder pdfT.head = .ok (sz, pyT)) :
    (0 < sz → processBuf buf = .ret .pythonFirst pdfSize sz
      (some (pyT.head, pyT.body, pyT.tail, pdfT.body, pdfT.tail))) ∧
    (sz ≤ 0 → ∀ sz2 pyT2, pythonFinder pdfT.tail = .ok (sz2, pyT2) →
      processBuf buf = .ret .pdfFirst pdfSize sz2
        (some (pdfT.head, pdfT.body, pyT2.head, pyT2.body, pyT2.tail))) := by
  constructor
  · intro hpos
    simp only [processBuf, hpdf, hpy]
    rw [if_pos hpos]
  · intro hnonpos sz2 pyT2 h2
    simp only [processBuf, hpdf, hpy]
    rw [if_neg (by omega : ¬ 0 < sz), h2]





theorem C2_classifier_head_first_witness :
    processBuf wbufC2py = .ret .pythonFirst 15 9
      (some (strBytes "bbbbbbbbbbbbbbbbbbbbbbbbb", strBytes "import os", [1],
        strBytes "%PDF-%%EOF%%EOF", [])) ∧
    processBuf wbufC2pdf = .ret .pdfFirst 19 9
      (some ([], strBytes "%PDF-ab%%EOFcd%%EOF", strBytes "aaaaaaaaaaaaaaaaaaaaaaaaa",
        strBytes "import os", [1])) :=
  ⟨(C2_classifier_head_first wbufC2py 15
      ⟨strBytes "bbbbbbbbbbbbbbbbbbbbbbbbbimport os" ++ [1], strBytes "%PDF-%%EOF%%EOF", []⟩
      9 ⟨strBytes "bbbbbbbbbbbbbbbbbbbbbbbbb", strBytes "import os", [1]⟩
      (by decide) (by decide)).1 (by decide),
   (C2_classifier_head_first wbufC2pdf 19
      ⟨[], strBytes "%PDF-ab%%EOFcd%%EOF", strBytes "aaaaaaaaaaaaaaaaaaaaaaaaaimport os" ++ [1]⟩
      0 ⟨[], [], []⟩ (by decide) (by decide)).2 (by decide) 9
      ⟨strBytes "aaaaaaaaaaaaaaaaaaaaaaaaa", strBytes "import os", [1]⟩ (by decide)⟩





/-- C3: evaluation of `processBuf` and of the main loop at the two
`WeirdFileError` scenarios.  When the tail attempt raises, the exception
handler returns status `ERROR` and the batch continues; but when the head
attempt raises, the handler's `return` statement reads the never-assigned
local `pythonSize`, so `processBuf` raises `UnboundLocalError` and the
batch aborts with the remaining files unprocessed — contradicting the
claim for the head attempt. -/
theorem C3_weird_file_eval :
    processBuf wbufWeirdHead = .unboundLocal ∧
    runBufs [wbufWeirdHead, wbufWeirdTail] = ([], true) ∧
    processBuf wbufWeirdTail = .ret .ERROR 15 0 none ∧
    runBufs [wbufWeirdTail] = ([(.ERROR, ⟨23, 15, 0⟩)], false) := by decide

theorem take_self_length {α : Type} (l : List α) (k : Nat) :
    l.take k = l.take (l.take k).length := by
  rw [List.length_take]
  rcases Nat.le_total k l.length with h | h
  · rw [Nat.min_eq_left h]
  · rw [Nat.min_eq_right h, List.take_of_length_le h, List.take_length]

theorem drop_pred_eq_getLast {buf : Buf} (hne : buf ≠ []) :
    buf.drop (buf.length - 1) = [buf.getLast hne] := by
  induction buf with
  | nil => exact absurd rfl hne
  | cons x xs ih =>
    cases xs with
    | nil => rfl
    | cons y t =>
      have hxs : (y :: t) ≠ [] := by simp
      have h1 : (x :: y :: t).length - 1 = (y :: t).length := by simp
      rw [h1]
      rw [show (y :: t).length = t.length + 1 from rfl, List.drop_succ_cons]
      have h2 := ih hxs
      have h3 : (y :: t).length - 1 = t.length := by simp
      rw [h3] at h2
      rw [h2, List.getLast_cons hxs]

theorem pythonFinder_ok_shape {b : Buf} {s : Int} {t : BufTriplet}
    (h : pythonFinder b = .ok (s, t)) : ∃ r, t = splitBuf b r := by
  rw [pythonFinder] at h
  cases hps : pythonPartStart b with
  | error e =>
    cases e
    rw [SplittingFinder_error hps] at h
    cases h
  | ok v =>
    rw [SplittingFinder_ok hps] at h
    cases h
    exact ⟨_, rfl⟩

/-- C10: on a non-empty buffer whose span is the sentinel `(-1, -1)`,
`splitBuf` yields an empty body, a head equal to the buffer without its
final byte, and a tail holding exactly the final byte.  Hence on a buffer
with no `%PDF-` marker the persisted `.pdf` body is empty, and the head
of the five-way split (the persisted `.head` segment) is a prefix of the
buffer-without-final-byte, so it never contains the final byte. -/
theorem C10_sentinel_split (buf : Buf) (hne : buf ≠ []) :
    splitBuf buf (-1, -1) = ⟨buf.dropLast, [], [buf.getLast hne]⟩ ∧
    (bfindN buf pdfStartPat 0 = none →
      (∀ sz t, pdfFinder buf = .ok (sz, t) → t.body = [] ∧ t.head = buf.dropLast) ∧
      (∀ st ps qs five, processBuf buf = .ret st ps qs (some five) →
        five.1 = buf.dropLast.take five.1.length)) := by
  have hsplit : splitBuf buf (-1, -1) = ⟨buf.dropLast, [], [buf.getLast hne]⟩ := by
    show BufTriplet.mk (pySliceTo buf (-1)) (pySliceBetween buf (-1) (-1))
        (pySliceFrom buf (-1)) = _
    have hhead : pySliceTo buf (-1) = buf.dropLast := by
      rw [pySliceTo, pyIdx_neg_one, ← List.dropLast_eq_take]
    have hbody : pySliceBetween buf (-1) (-1) = [] := by
      rw [pySliceBetween, pyIdx_neg_one]
      exact List.drop_eq_nil_of_le (by rw [List.length_take]; omega)
    have htail : pySliceFrom buf (-1) = [buf.getLast hne] := by
      rw [pySliceFrom, pyIdx_neg_one]
      exact drop_pred_eq_getLast hne
    rw [hhead, hbody, htail]

  refine ⟨hsplit, fun hb => ?_⟩
  have hfs : pdfStartFinder buf = .ok (-1) := by simp [pdfStartFinder, bfind, hb]
  have hpdf : pdfFinder buf = .ok (0, splitBuf buf (-1, -1)) := by
    rw [pdfFinder, SplittingFinder_ok hfs]
    simp only [if_pos rfl]
    rfl
  constructor
  · intro sz t h
    rw [hpdf] at h
    cases h
    rw [hsplit]
    exact ⟨rfl, rfl⟩
  · intro st ps qs five h
    simp only [processBuf, hpdf, hsplit] at h
    cases hpy : pythonFinder buf.dropLast with
    | error e =>
      rw [hpy] at h
      cases h
    | ok v =>
      obtain ⟨psz, pyS⟩ := v
      rw [hpy] at h
      dsimp only at h
      by_cases hpos : 0 < psz
      · rw [if_pos hpos] at h
        obtain ⟨r, rfl⟩ := pythonFinder_ok_shape hpy
        cases h
        exact take_self_length _ _
      · rw [if_neg hpos] at h
        cases hpy2 : pythonFinder [buf.getLast hne] with
        | error e =>
          rw [hpy2] at h
          cases h
        | ok v2 =>
          obtain ⟨psz2, pyS2⟩ := v2
          rw [hpy2] at h
          cases h
          exact (List.take_length buf.dropLast).symm

theorem C10_sentinel_split_witness :
    splitBuf (strBytes "hello") (-1, -1) =
      ⟨(strBytes "hello").dropLast, [], [(strBytes "hello").getLast (by decide)]⟩ ∧
    ((BufTriplet.mk (strBytes "hell") [] (strBytes "o")).body = [] ∧
      (BufTriplet.mk (strBytes "hell") [] (strBytes "o")).head = (strBytes "hello").dropLast) ∧
    strBytes "hell" = (strBytes "hello").dropLast.take (strBytes "hell").length :=
  ⟨(C10_sentinel_split (strBytes "hello") (by decide)).1,
   ((C10_sentinel_split (strBytes "hello") (by decide)).2 (by decide)).1 0
     ⟨strBytes "hell", [], strBytes "o"⟩ (by decide),
   ((C10_sentinel_split (strBytes "hello") (by decide)).2 (by decide)).2
     .pdfFirst 0 0 (strBytes "hell", [], [], [], strBytes "o") (by decide)⟩

theorem mem_eofOccsFrom {buf : Buf} {start x : Nat} :
    x ∈ eofOccsFrom buf start ↔ start ≤ x ∧ matchesAt buf eofPat x = true := by
  constructor
  · intro h
    have := List.mem_filter.mp h
    simpa using this.2
  · rintro ⟨h1, h2⟩
    apply List.mem_filter.mpr
    refine ⟨List.mem_range.mpr ?_, by simp [h1, h2]⟩
    have := matchesAt_bound (by decide : eofPat ≠ []) h2
    omega

theorem eofOccsFrom_sorted (buf : Buf) (start : Nat) :
    (eofOccsFrom buf start).Pairwise (· < ·) :=
  List.Pairwise.sublist (List.filter_sublist _) (List.pairwise_lt_range _)

theorem matchesAt_getElem {buf pat : Buf} {i : Nat} (h : matchesAt buf pat i = true)
    (k : Nat) (hk : k < pat.length) : buf[i + k]? = pat[k]? := by
  have he : (buf.drop i).take pat.length = pat := matchesAt_iff.mp h
  have h2 : ((buf.drop i).take pat.length)[k]? = pat[k]? := by rw [he]
  rw [List.getElem?_take_of_lt hk, List.getElem?_drop] at h2
  exact h2

/-- The literal `%%EOF` cannot overlap itself: two distinct occurrences
are at least 5 bytes apart, so the second search of `pdfPartEnd`, resumed
at the end offset of the first occurrence, finds exactly the second
occurrence. -/
theorem eofPat_no_overlap {buf : Buf} {i j : Nat} (hi : matchesAt buf eofPat i = true)
    (hj : matchesAt buf eofPat j = true) (hij : i < j) : i + 5 ≤ j := by
  by_contra hcon
  have hd : j = i + 1 ∨ j = i + 2 ∨ j = i + 3 ∨ j = i + 4 := by omega
  rcases hd with rfl | rfl | rfl | rfl
  · have e1 := matchesAt_getElem hi 2 (by decide)
    have e2 := matchesAt_getElem hj 1 (by decide)
    rw [show i + 1 + 1 = i + 2 from rfl, e1] at e2
    exact absurd e2 (by decide)
  · have e1 := matchesAt_getElem hi 2 (by decide)
    have e2 := matchesAt_getElem hj 0 (by decide)
    rw [show i + 2 + 0 = i + 2 from rfl, e1] at e2
    exact absurd e2 (by decide)
  · have e1 := matchesAt_getElem hi 3 (by decide)
    have e2 := matchesAt_getElem hj 0 (by decide)
    rw [show i + 3 + 0 = i + 3 from rfl, e1] at e2
    exact absurd e2 (by decide)
  · have e1 := matchesAt_getElem hi 4 (by decide)
    have e2 := matchesAt_getElem hj 0 (by decide)
    rw [show i + 4 + 0 = i + 4 from rfl, e1] at e2
    exact absurd e2 (by decide)

/-- C4: whenever at least two `%%EOF` occurrences lie at or after the
start offset, `pdfPartEnd` returns the offset immediately after the
SECOND such occurrence (the first search yields an interior boundary and
the second resumes there); with fewer than two occurrences it returns
`-1`.  Instantiating `start` with the `%PDF-` offset gives the pdf span
end of the claim. -/
theorem C4_pdfPartEnd_second_eof (buf : Buf) (start : Nat) :
    (∀ k, (eofOccsFrom buf start)[1]? = some k →
      pdfPartEnd buf start = ((k + 5 : Nat) : Int)) ∧
    ((eofOccsFrom buf start)[1]? = none → pdfPartEnd buf start = -1) := by
  have hlen5 : eofPat.length = 5 := by decide
  constructor
  · intro k hk
    obtain ⟨a, rest, hocc⟩ : ∃ a rest, eofOccsFrom buf start = a :: k :: rest := by
      cases hl : eofOccsFrom buf start with
      | nil => rw [hl] at hk; cases hk
      | cons a tl =>
        cases tl with
        | nil => rw [hl] at hk; cases hk
        | cons b t =>
          rw [hl] at hk
          simp only [List.getElem?_cons_succ, List.getElem?_cons_zero,
            Option.some.injEq] at hk
          exact ⟨a, t, by rw [hk]⟩
    have hsorted := eofOccsFrom_sorted buf start
    rw [hocc] at hsorted
    have hak : a < k := (List.pairwise_cons.mp hsorted).1 k (by simp)
    have hamem : a ∈ eofOccsFrom buf start := by rw [hocc]; simp
    have hkmem : k ∈ eofOccsFrom buf start := by rw [hocc]; simp
    obtain ⟨hsa, hma⟩ := mem_eofOccsFrom.mp hamem
    obtain ⟨hsk, hmk⟩ := mem_eofOccsFrom.mp hkmem
    have hmin_a : ∀ j, start ≤ j → j < a → matchesAt buf eofPat j = false := by
      intro j hj1 hj2
      by_contra hc
      have hc' : matchesAt buf eofPat j = true := by simpa using hc
      have hjmem : j ∈ eofOccsFrom buf start := mem_eofOccsFrom.mpr ⟨hj1, hc'⟩
      rw [hocc] at hjmem
      rcases List.mem_cons.mp hjmem with rfl | hjm
      · omega
      · rcases List.mem_cons.mp hjm with rfl | hjm2
        · omega
        · have := (List.pairwise_cons.mp hsorted).1 j (List.mem_cons_of_mem _ hjm2)
          omega
    have hfind1 : bfindN buf eofPat start = some a :=
      (bfindN_eq_some (by decide : eofPat ≠ [])).mpr ⟨hsa, hma, hmin_a⟩
    have hk5 : a + 5 ≤ k := eofPat_no_overlap hma hmk hak
    have hmin_k : ∀ j, a + 5 ≤ j → j < k → matchesAt buf eofPat j = false := by
      intro j hj1 hj2
      by_contra hc
      have hc' : matchesAt buf eofPat j = true := by simpa using hc
      have hjmem : j ∈ eofOccsFrom buf start := mem_eofOccsFrom.mpr ⟨by omega, hc'⟩
      rw [hocc] at hjmem
      rcases List.mem_cons.mp hjmem with rfl | hjm
      · omega
      · rcases List.mem_cons.mp hjm with rfl | hjm2
        · omega
        · have := (List.pairwise_cons.mp (List.pairwise_cons.mp hsorted).2).1 j hjm2
          omega
    have hfind2 : bfindN buf eofPat (a + 5) = some k :=
      (bfindN_eq_some (by decide : eofPat ≠ [])).mpr ⟨hk5, hmk, hmin_k⟩
    rw [pdfPartEnd]
    simp only [pdfPartMaybeEnd, hfind1, hlen5]
    rw [if_neg (by omega : ¬ ((a + 5 : Nat) : Int) = -1), Int.toNat_natCast, hfind2]
  · intro hnone
    cases hocc : eofOccsFrom buf start with
    | nil =>
      have hfind1 : bfindN buf eofPat start = none := by
        apply (bfindN_eq_none (by decide : eofPat ≠ [])).mpr
        intro j hj
        by_contra hc
        have hc' : matchesAt buf eofPat j = true := by simpa using hc
        have hjmem : j ∈ eofOccsFrom buf start := mem_eofOccsFrom.mpr ⟨hj, hc'⟩
        rw [hocc] at hjmem
        cases hjmem
      rw [pdfPartEnd]
      simp [pdfPartMaybeEnd, hfind1]
    | cons a tl =>
      cases tl with
      | cons b t => rw [hocc] at hnone; simp at hnone
      | nil =>
        have hsorted := eofOccsFrom_sorted buf start
        rw [hocc] at hsorted
        have hamem : a ∈ eofOccsFrom buf start := by rw [hocc]; simp
        obtain ⟨hsa, hma⟩ := mem_eofOccsFrom.mp hamem
        have hmin_a : ∀ j, start ≤ j → j < a → matchesAt buf eofPat j = false := by
          intro j hj1 hj2
          by_contra hc
          have hc' : matchesAt buf eofPat j = true := by simpa using hc
          have hjmem : j ∈ eofOccsFrom buf start := mem_eofOccsFrom.mpr ⟨hj1, hc'⟩
          rw [hocc] at hjmem
          rcases List.mem_cons.mp hjmem with rfl | hjm
          · omega
          · cases hjm
        have hfind1 : bfindN buf eofPat start = some a :=
          (bfindN_eq_some (by decide : eofPat ≠ [])).mpr ⟨hsa, hma, hmin_a⟩
        have hfind2 : bfindN buf eofPat (a + 5) = none := by
          apply (bfindN_eq_none (by decide : eofPat ≠ [])).mpr
          intro j hj
          by_contra hc
          have hc' : matchesAt buf eofPat j = true := by simpa using hc
          have hjmem : j ∈ eofOccsFrom buf start := mem_eofOccsFrom.mpr ⟨by omega, hc'⟩
          rw [hocc] at hjmem
          rcases List.mem_cons.mp hjmem with rfl | hjm
          · omega
          · cases hjm
        rw [pdfPartEnd]
        simp only [pdfPartMaybeEnd, hfind1, hlen5]
        rw [if_neg (by omega : ¬ ((a + 5 : Nat) : Int) = -1), Int.toNat_natCast, hfind2]

theorem C4_pdfPartEnd_second_eof_witness :
    pdfPartEnd wbufC4 0 = ((14 + 5 : Nat) : Int) ∧
    pdfPartEnd wbufPdfNoEof 0 = -1 :=
  ⟨(C4_pdfPartEnd_second_eof wbufC4 0).1 14 (by decide),
   (C4_pdfPartEnd_second_eof wbufPdfNoEof 0).2 (by decide)⟩

/-- C5: `pythonPartStart` raises `WeirdFileError` exactly when the
literal "import " occurs and its first occurrence is at an offset below
the 25-byte look-back window; when the literal is absent it returns `-1`
without raising; and when the first occurrence is at offset `p ≥ 25`, it
searches the stricter from/import pattern only from `p - 25` onward,
returning the leftmost match start, or `-1` when no position from
`p - 25` on matches. -/
theorem C5_pythonPartStart_window (buf : Buf) :
    (pythonPartStart buf = .error () ↔
      ∃ p, bfindN buf importPat 0 = some p ∧ p < BACKWARD_LOOKUP_LEN) ∧
    (bfindN buf importPat 0 = none → pythonPartStart buf = .ok (-1)) ∧
    (∀ p, bfindN buf importPat 0 = some p → BACKWARD_LOOKUP_LEN ≤ p →
      ((∀ j, j < buf.length → p - BACKWARD_LOOKUP_LEN ≤ j →
          pyStartMatchAt buf j = false) → pythonPartStart buf = .ok (-1)) ∧
      (∀ i, p - BACKWARD_LOOKUP_LEN ≤ i → pyStartMatchAt buf i = true →
        (∀ j, j < i → p - BACKWARD_LOOKUP_LEN ≤ j → pyStartMatchAt buf j = false) →
        pythonPartStart buf = .ok ((i : Nat) : Int))) := by
  refine ⟨⟨?_, ?_⟩, ?_, ?_⟩
  · intro h
    rw [pythonPartStart] at h
    cases h1 : bfindN buf importPat 0 with
    | none => rw [h1] at h; cases h
    | some p =>
      rw [h1] at h
      dsimp only at h
      by_cases hp : p < BACKWARD_LOOKUP_LEN
      · exact ⟨p, rfl, hp⟩
      · rw [if_neg hp] at h
        cases h2 : pythonStartSearch buf (p - BACKWARD_LOOKUP_LEN) with
        | none => rw [h2] at h; cases h
        | some i => rw [h2] at h; cases h
  · rintro ⟨p, hp1, hp2⟩
    rw [pythonPartStart, hp1]
    dsimp only
    rw [if_pos hp2]
  · intro h
    rw [pythonPartStart, h]
  · intro p hp h25
    constructor
    · intro hall
      have hnone : pythonStartSearch buf (p - BACKWARD_LOOKUP_LEN) = none := by
        apply pythonStartSearch_eq_none.mpr
        intro j hj
        by_cases hjn : j < buf.length
        · exact hall j hjn hj
        · by_contra hc
          have hc' : pyStartMatchAt buf j = true := by simpa using hc
          have := pyStartMatchAt_facts hc'
          omega
      rw [pythonPartStart, hp]
      dsimp only
      rw [if_neg (by omega), hnone]
    · intro i hi hmatch hmin
      have hsome : pythonStartSearch buf (p - BACKWARD_LOOKUP_LEN) = some i :=
        pythonStartSearch_eq_some.mpr ⟨hi, hmatch, fun j ha hb => hmin j hb ha⟩
      rw [pythonPartStart, hp]
      dsimp only
      rw [if_neg (by omega), hsome]

theorem C5_pythonPartStart_window_witness :
    pythonPartStart (strBytes "import x") = .error () ∧
    pythonPartStart (strBytes "hello") = .ok (-1) ∧
    pythonPartStart wbufRegexMiss = .ok (-1) ∧
    pythonPartStart wbufPyNoEnd = .ok ((25 : Nat) : Int) :=
  ⟨(C5_pythonPartStart_window (strBytes "import x")).1.mpr ⟨0, by decide, by decide⟩,
   (C5_pythonPartStart_window (strBytes "hello")).2.1 (by decide),
   ((C5_pythonPartStart_window wbufRegexMiss).2.2 25 (by decide) (by decide)).1 (by decide),
   ((C5_pythonPartStart_window wbufPyNoEnd).2.2 25 (by decide) (by decide)).2 25
     (by decide) (by decide) (by decide)⟩

end Pkp
